import Mathlib

/-!
Verification of the core logic of the DMV guide page
(`src/international_student_dl_step_1_website.jsx`): the office locator
filter (`filterDmvs`) and the comment store (load effect, save effect and
`handleSubmit` in `CommentSection`).

Strings are modelled as lists of characters (`Str`).  JavaScript's
`trim`, `toLowerCase` and `includes` are embedded as `jsTrim`,
`jsToLower` and `strIncludes`; `jsToLower` implements the ASCII case
mapping, which coincides with `String.prototype.toLowerCase` on every
character appearing in the repository's data.
-/

abbrev Str := List Char

/-- Convert a Lean string literal to the character-list model. -/
def chars (s : String) : Str := s.data

/-- The whitespace class removed by `String.prototype.trim`
(ASCII whitespace, NBSP and the BOM). -/
def isJsWhitespace (c : Char) : Bool :=
  c == ' ' || c == '\t' || c == '\n' || c == '\r' || c == '\x0b' ||
    c == '\x0c' || c == '\u00A0' || c == '\uFEFF'

/-- ASCII case mapping of `String.prototype.toLowerCase`. -/
def jsCharToLower (c : Char) : Char :=
  if 'A' ≤ c ∧ c ≤ 'Z' then Char.ofNat (c.toNat + 32) else c

/-- Model of `s.toLowerCase()`. -/
def jsToLower (s : Str) : Str := s.map jsCharToLower

/-- Model of `s.trim()`: drop leading and trailing whitespace. -/
def jsTrim (s : Str) : Str :=
  ((s.dropWhile isJsWhitespace).reverse.dropWhile isJsWhitespace).reverse

/-- `strStartsWith s q` holds when `q` occurs at the start of `s`. -/
def strStartsWith : Str → Str → Bool
  | _, [] => true
  | [], _ :: _ => false
  | c :: s, d :: q => c == d && strStartsWith s q

/-- Model of `s.includes(q)`: `q` occurs contiguously somewhere in `s`. -/
def strIncludes : Str → Str → Bool
  | [], q => q.isEmpty
  | c :: t, q => strStartsWith (c :: t) q || strIncludes t q

/-- `DmvOffice` record from the source (`type DmvOffice`). -/
structure DmvOffice where
  name : Str
  address : Str
  phone : Str
  deriving DecidableEq

/-- The template literal `` `${d.name} ${d.address} ${d.phone}` ``. -/
def officeHaystack (d : DmvOffice) : Str :=
  d.name ++ chars " " ++ d.address ++ chars " " ++ d.phone

/-- Embedding of `filterDmvs` from the source:
trim and lowercase the query; an empty result keeps the whole list,
otherwise keep offices whose lowercased joined fields contain it. -/
def filterDmvs (permitDmvs : List DmvOffice) (query : Str) : List DmvOffice :=
  let q := jsToLower (jsTrim query)
  if q.isEmpty then permitDmvs
  else permitDmvs.filter (fun d => strIncludes (jsToLower (officeHaystack d)) q)

/-! ## Comment store: data model

The source's `CommentItem` has a `type` field holding one of two string
literals; following the spec's decode pattern we represent it by the
two-element enumeration `CommentKind` whose `toStr` gives back the
source literals. -/

/-- The two comment categories of the source's `CommentItem["type"]`. -/
inductive CommentKind where
  | generalComment
  | requestToEditSteps
  deriving DecidableEq

/-- The string literal stored for each kind (`"General Comment"` /
`"Request to Edit Steps"`). -/
def CommentKind.toStr : CommentKind → Str
  | .generalComment => chars "General Comment"
  | .requestToEditSteps => chars "Request to Edit Steps"

/-- `CommentItem` record from the source. -/
structure CommentItem where
  type : CommentKind
  text : Str
  createdAt : Int
  deriving DecidableEq

/-- Parsed JSON values, as produced by `JSON.parse`.  Numbers are
modelled as integers (every number the store writes is `Date.now()`,
an integer). -/
inductive JValue where
  | null
  | bool (b : Bool)
  | num (n : Int)
  | str (s : Str)
  | arr (elems : List JValue)
  | obj (fields : List (Str × JValue))

/-- Property access `x.k` on a parsed JSON object: the value of the
first field named `k`, if any. -/
def getField (fields : List (Str × JValue)) (k : Str) : Option JValue :=
  match fields with
  | [] => none
  | (k2, v) :: rest => if k2 = k then some v else getField rest k

/-- The load effect's element-wise shape check, as a decode step: an
element survives exactly when it is an object whose `type` is one of the
two literals, whose `text` is a string and whose `createdAt` is a
number; a surviving element is read back as a `CommentItem`. -/
def decodeComment (v : JValue) : Option CommentItem :=
  match v with
  | .obj fields =>
    match getField fields (chars "type"), getField fields (chars "text"),
        getField fields (chars "createdAt") with
    | some (.str t), some (.str txt), some (.num ts) =>
      if t = CommentKind.generalComment.toStr then
        some { type := .generalComment, text := txt, createdAt := ts }
      else if t = CommentKind.requestToEditSteps.toStr then
        some { type := .requestToEditSteps, text := txt, createdAt := ts }
      else none
    | _, _, _ => none
  | _ => none

/-- What the load effect read from `localStorage`: the key was absent
(or held the empty string, which the `if (!raw)` guard also skips),
`JSON.parse` threw, or it produced a value. -/
inductive StoredValue where
  | absent
  | unparseable
  | parsed (v : JValue)

/-- Embedding of the load effect: absent, unparseable or non-array
input leaves the initial empty list; an array is filtered by the shape
check and then `slice(0, 200)` keeps the first 200 survivors. -/
def loadComments : StoredValue → List CommentItem
  | .absent => []
  | .unparseable => []
  | .parsed (.arr xs) => (xs.filterMap decodeComment).take 200
  | .parsed _ => []

/-! ## Comment store: serialization and session -/

/-- JSON string escaping for one character (`JSON.stringify`). -/
def escapeJsonChar (c : Char) : Str :=
  if c = '"' then chars "\\\""
  else if c = '\\' then chars "\\\\"
  else if c = '\n' then chars "\\n"
  else if c = '\r' then chars "\\r"
  else if c = '\t' then chars "\\t"
  else [c]

/-- Serialize one comment the way `JSON.stringify` lays it out
(insertion order of the object literal: `type`, `text`, `createdAt`). -/
def stringifyComment (c : CommentItem) : Str :=
  chars "\x7b\"type\":\"" ++ c.type.toStr ++ chars "\",\"text\":\"" ++
    (c.text.flatMap escapeJsonChar) ++ chars "\",\"createdAt\":" ++
    (toString c.createdAt).data ++ chars "\x7d"

/-- Comma-join for array serialization. -/
def joinComma : List Str → Str
  | [] => []
  | [x] => x
  | x :: rest => x ++ chars "," ++ joinComma rest

/-- `JSON.stringify(comments)`. -/
def stringifyComments (cs : List CommentItem) : Str :=
  chars "[" ++ joinComma (cs.map stringifyComment) ++ chars "]"

/-- A page session: the in-memory comment list and the persistent slot
at the fixed key `"stl_intl_dl_comments_v1"` (`none` = key absent). -/
structure Session where
  comments : List CommentItem
  slot : Option Str
  deriving DecidableEq

/-- The save effect: writes the serialized list to the slot; a failed
write (`writeOk = false`) is caught and ignored, leaving everything
unchanged. -/
def saveEffect (writeOk : Bool) (s : Session) : Session :=
  if writeOk then { s with slot := some (stringifyComments s.comments) } else s

/-- Session state right after mount: the load effect replaces the
initial empty list with the validated stored data, then the save effect
(which runs on every change of `comments`) writes it back. -/
def initSession (stored : StoredValue) (writeOk : Bool) (slot0 : Option Str) :
    Session :=
  saveEffect writeOk { comments := loadComments stored, slot := slot0 }

/-- Embedding of `handleSubmit`'s update of the comment list: trim the
textarea content; if empty, return unchanged (the early `return`),
otherwise prepend the new comment with the current time. -/
def handleSubmit (now : Int) (k : CommentKind) (text : Str)
    (prev : List CommentItem) : List CommentItem :=
  let trimmed := jsTrim text
  if trimmed.isEmpty then prev
  else { type := k, text := trimmed, createdAt := now } :: prev

/-- A submit action at session level: on the early return `setComments`
is never called, so the save effect does not run; otherwise the list is
updated and the save effect fires. -/
def doSubmit (now : Int) (k : CommentKind) (text : Str) (writeOk : Bool)
    (s : Session) : Session :=
  if (jsTrim text).isEmpty then s
  else saveEffect writeOk { s with comments := handleSubmit now k text s.comments }

/-- One user submission with its clock reading and write outcome. -/
structure SubmitOp where
  now : Int
  kind : CommentKind
  text : Str
  writeOk : Bool

/-- Run a sequence of submissions against a session. -/
def runOps : List SubmitOp → Session → Session
  | [], s => s
  | op :: rest, s => runOps rest (doSubmit op.now op.kind op.text op.writeOk s)

/-! ## String lemmas -/

/-- `t` contains `q` as a contiguous substring. -/
def containsSub (t q : Str) : Prop := ∃ a b, t = a ++ (q ++ b)

theorem strStartsWith_iff : ∀ s q : Str, strStartsWith s q = true ↔ ∃ b, s = q ++ b := by
  intro s q
  induction q generalizing s with
  | nil => cases s <;> simp [strStartsWith]
  | cons d q ih =>
    cases s with
    | nil => simp [strStartsWith]
    | cons c s =>
      simp only [strStartsWith, Bool.and_eq_true, beq_iff_eq, ih, List.cons_append,
        List.cons.injEq]
      constructor
      · rintro ⟨hc, b, hb⟩
        exact ⟨b, hc, hb⟩
      · rintro ⟨b, hc, hb⟩
        exact ⟨hc, b, hb⟩

theorem strIncludes_iff : ∀ s q : Str, strIncludes s q = true ↔ containsSub s q := by
  intro s q
  induction s with
  | nil =>
    simp only [strIncludes, List.isEmpty_iff, containsSub]
    constructor
    · rintro rfl
      exact ⟨[], [], rfl⟩
    · rintro ⟨a, b, hab⟩
      rcases List.append_eq_nil.mp hab.symm with ⟨rfl, h2⟩
      rcases List.append_eq_nil.mp h2 with ⟨rfl, rfl⟩
      rfl
  | cons c t ih =>
    simp only [strIncludes, Bool.or_eq_true, strStartsWith_iff, ih, containsSub]
    constructor
    · rintro (⟨b, hb⟩ | ⟨a, b, hab⟩)
      · exact ⟨[], b, hb⟩
      · exact ⟨c :: a, b, by rw [hab]; rfl⟩
    · rintro ⟨a, b, hab⟩
      cases a with
      | nil => exact Or.inl ⟨b, hab⟩
      | cons x a =>
        injection hab with h1 h2
        exact Or.inr ⟨a, b, h2⟩

theorem containsSub_trans {t s q : Str} (h1 : containsSub t s) (h2 : containsSub s q) :
    containsSub t q := by
  obtain ⟨a1, b1, rfl⟩ := h1
  obtain ⟨a2, b2, rfl⟩ := h2
  exact ⟨a1 ++ a2, b2 ++ b1, by simp [List.append_assoc]⟩

theorem containsSub_lower {t s : Str} (h : containsSub t s) :
    containsSub (jsToLower t) (jsToLower s) := by
  obtain ⟨a, b, rfl⟩ := h
  exact ⟨jsToLower a, jsToLower b, by simp [jsToLower]⟩

theorem jsTrim_sub (s : Str) : containsSub s (jsTrim s) := by
  refine ⟨s.takeWhile isJsWhitespace,
    ((s.dropWhile isJsWhitespace).reverse.takeWhile isJsWhitespace).reverse, ?_⟩
  conv_lhs => rw [← List.takeWhile_append_dropWhile (p := isJsWhitespace) (l := s)]
  congr 1
  conv_lhs => rw [← List.reverse_reverse (s.dropWhile isJsWhitespace),
    ← List.takeWhile_append_dropWhile (p := isJsWhitespace)
      (l := (s.dropWhile isJsWhitespace).reverse)]
  rw [List.reverse_append]
  rfl

theorem jsToLower_eq_nil {s : Str} : jsToLower s = [] ↔ s = [] := by
  simp [jsToLower]

/-- When the trimmed query is empty, `filterDmvs` takes the identity branch. -/
theorem filterDmvs_empty_trim {query : Str} (h : jsTrim query = [])
    (offices : List DmvOffice) : filterDmvs offices query = offices := by
  simp [filterDmvs, h, jsToLower]

/-- When the trimmed query is non-empty, `filterDmvs` takes the filter branch. -/
theorem filterDmvs_pos {query : Str} (h : jsTrim query ≠ [])
    (offices : List DmvOffice) :
    filterDmvs offices query = offices.filter
      (fun d => strIncludes (jsToLower (officeHaystack d)) (jsToLower (jsTrim query))) := by
  have hne : (jsToLower (jsTrim query)).isEmpty = false := by
    simp [List.isEmpty_iff, jsToLower_eq_nil, h]
  simp [filterDmvs, hne]

/-! ## Concrete data for the spec's scenarios -/

/-- The AFTON office from the spec's scenario (a row of `permitDmvs`). -/
def aftonOffice : DmvOffice :=
  { name := chars "AFTON (003)", address := chars "9513 Gravois Rd, Afton",
    phone := chars "(314) 631-1311" }

/-- The CLAYTON office from the spec's scenario. -/
def claytonOffice : DmvOffice :=
  { name := chars "CLAYTON (162)", address := chars "141 N Meramec Ave Ste 201, Clayton",
    phone := chars "(314) 499-7223" }

/-- `s` occurs in `t` up to letter case: the lowercasing of `s` is a
contiguous substring of the lowercasing of `t`. -/
def caseVariantSubstring (s t : Str) : Prop :=
  containsSub (jsToLower t) (jsToLower s)

/-! ## Claims about the locator filter -/

/-- C1: for a query whose trimmed form is non-empty, `filterDmvs`
returns exactly the subsequence of offices (original order preserved)
whose name, address and phone, joined in that order with single spaces,
contain the lowercased trimmed query as a case-insensitive substring. -/
theorem filterDmvs_nonempty_query_spec (offices : List DmvOffice) (query : Str)
    (h : jsTrim query ≠ []) :
    filterDmvs offices query = offices.filter
      (fun d => strIncludes (jsToLower (officeHaystack d)) (jsToLower (jsTrim query)))
    ∧ List.Sublist (filterDmvs offices query) offices
    ∧ ∀ d : DmvOffice, d ∈ filterDmvs offices query ↔
        d ∈ offices ∧ containsSub (jsToLower (officeHaystack d)) (jsToLower (jsTrim query)) := by
  refine ⟨filterDmvs_pos h offices, ?_, ?_⟩
  · rw [filterDmvs_pos h offices]
    exact List.filter_sublist offices
  · intro d
    rw [filterDmvs_pos h offices, List.mem_filter, strIncludes_iff]

/-- Witness for C1 at the spec's scenario inputs. -/
theorem filterDmvs_nonempty_query_spec_witness :
    jsTrim (chars "gravois") ≠ [] ∧
    filterDmvs [aftonOffice, claytonOffice] (chars "gravois") =
      List.filter
        (fun d => strIncludes (jsToLower (officeHaystack d)) (jsToLower (jsTrim (chars "gravois"))))
        [aftonOffice, claytonOffice] ∧
    filterDmvs [aftonOffice, claytonOffice] (chars "gravois") = [aftonOffice] ∧
    filterDmvs [aftonOffice, claytonOffice] (chars "314") = [aftonOffice, claytonOffice] :=
  ⟨by decide,
    (filterDmvs_nonempty_query_spec [aftonOffice, claytonOffice] (chars "gravois") (by decide)).1,
    by decide, by decide⟩

/-- C6: a query that trims to the empty string leaves the office list
untouched: `filterDmvs` is the identity there. -/
theorem filterDmvs_empty_query_identity (offices : List DmvOffice) (query : Str)
    (h : jsTrim query = []) : filterDmvs offices query = offices :=
  filterDmvs_empty_trim h offices

/-- Witness for C6 on a whitespace-only query. -/
theorem filterDmvs_empty_query_identity_witness :
    jsTrim (chars "   ") = [] ∧
    filterDmvs [aftonOffice, claytonOffice] (chars "   ") = [aftonOffice, claytonOffice] :=
  ⟨by decide, filterDmvs_empty_query_identity [aftonOffice, claytonOffice] (chars "   ") (by decide)⟩

/-- C7: an office stays in the filtered list for any non-empty query
that is a case-variant substring of one of its three fields. -/
theorem filterDmvs_field_substring_mem (offices : List DmvOffice) (o : DmvOffice)
    (s : Str) (ho : o ∈ offices) (_hs : s ≠ [])
    (h : caseVariantSubstring s o.name ∨ caseVariantSubstring s o.address ∨
      caseVariantSubstring s o.phone) :
    o ∈ filterDmvs offices s := by
  by_cases hq : jsTrim s = []
  · rw [filterDmvs_empty_trim hq]
    exact ho
  · rw [filterDmvs_pos hq]
    refine List.mem_filter.mpr ⟨ho, ?_⟩
    rw [strIncludes_iff]
    have hqs : containsSub (jsToLower s) (jsToLower (jsTrim s)) :=
      containsSub_lower (jsTrim_sub s)
    have hname : containsSub (officeHaystack o) o.name :=
      ⟨[], chars " " ++ o.address ++ chars " " ++ o.phone, by simp [officeHaystack]⟩
    have haddr : containsSub (officeHaystack o) o.address :=
      ⟨o.name ++ chars " ", chars " " ++ o.phone, by simp [officeHaystack]⟩
    have hphone : containsSub (officeHaystack o) o.phone :=
      ⟨o.name ++ chars " " ++ o.address ++ chars " ", [], by simp [officeHaystack]⟩
    rcases h with h | h | h
    · exact containsSub_trans (containsSub_trans (containsSub_lower hname) h) hqs
    · exact containsSub_trans (containsSub_trans (containsSub_lower haddr) h) hqs
    · exact containsSub_trans (containsSub_trans (containsSub_lower hphone) h) hqs

/-- Witness for C7: the uppercased fragment `GRAVOIS` of the AFTON
address keeps AFTON in the result. -/
theorem filterDmvs_field_substring_mem_witness :
    chars "GRAVOIS" ≠ [] ∧
    caseVariantSubstring (chars "GRAVOIS") aftonOffice.address ∧
    aftonOffice ∈ filterDmvs [aftonOffice, claytonOffice] (chars "GRAVOIS") := by
  refine ⟨by decide, ⟨chars "9513 ", chars " rd, afton", by decide⟩, ?_⟩
  exact filterDmvs_field_substring_mem [aftonOffice, claytonOffice] aftonOffice
    (chars "GRAVOIS") (by simp) (by decide)
    (Or.inr (Or.inl ⟨chars "9513 ", chars " rd, afton", by decide⟩))

/-! ## Concrete stored data for the spec's comment scenarios -/

/-- A well-shaped stored comment object with timestamp `i`. -/
def mkStoredComment (i : Nat) : JValue :=
  .obj [(chars "type", .str (chars "General Comment")),
    (chars "text", .str (chars "hi")),
    (chars "createdAt", .num (Int.ofNat i))]

/-- The comment that `mkStoredComment i` decodes to. -/
def mkLoadedComment (i : Nat) : CommentItem :=
  { type := .generalComment, text := chars "hi", createdAt := Int.ofNat i }

/-- A stored object missing its `text` field. -/
def storedCommentNoText : JValue :=
  .obj [(chars "type", .str (chars "General Comment")),
    (chars "createdAt", .num 0)]

theorem decodeComment_mkStoredComment (i : Nat) :
    decodeComment (mkStoredComment i) = some (mkLoadedComment i) := rfl

/-- Loading an array of `n` well-shaped comments keeps the first
`min 200 n` of them, in order. -/
theorem loadComments_range (n : Nat) :
    loadComments (.parsed (.arr ((List.range n).map mkStoredComment))) =
      (List.range (min 200 n)).map mkLoadedComment := by
  show (((List.range n).map mkStoredComment).filterMap decodeComment).take 200 = _
  rw [List.filterMap_map]
  have hfun : decodeComment ∘ mkStoredComment = fun i => some (mkLoadedComment i) :=
    funext fun i => decodeComment_mkStoredComment i
  rw [hfun]
  rw [show (fun i => some (mkLoadedComment i)) = some ∘ mkLoadedComment from rfl]
  rw [List.filterMap_eq_map, ← List.map_take, List.take_range]

/-! ## Claims about the comment store -/

/-- C2: the load effect yields the empty list when the stored value is
absent, unparseable or not an array; when it is an array it keeps
exactly the elements passing the shape check, in order, truncated to
the first 200 survivors.  In particular 250 well-shaped comments load
as the first 200 in order, and a well-shaped comment next to an object
missing `text` loads alone. -/
theorem loadComments_spec :
    loadComments .absent = [] ∧
    loadComments .unparseable = [] ∧
    loadComments (.parsed .null) = [] ∧
    (∀ b : Bool, loadComments (.parsed (.bool b)) = []) ∧
    (∀ n : Int, loadComments (.parsed (.num n)) = []) ∧
    (∀ s : Str, loadComments (.parsed (.str s)) = []) ∧
    (∀ fs : List (Str × JValue), loadComments (.parsed (.obj fs)) = []) ∧
    (∀ xs : List JValue,
      loadComments (.parsed (.arr xs)) = (xs.filterMap decodeComment).take 200) ∧
    loadComments (.parsed (.arr ((List.range 250).map mkStoredComment))) =
      (List.range 200).map mkLoadedComment ∧
    loadComments (.parsed (.arr [mkStoredComment 7, storedCommentNoText])) =
      [mkLoadedComment 7] := by
  refine ⟨rfl, rfl, rfl, fun b => rfl, fun n => rfl, fun s => rfl, fun fs => rfl,
    fun xs => rfl, ?_, by decide⟩
  rw [loadComments_range 250, show min 200 250 = 200 from by decide]

/-! ## Session lemmas -/

theorem saveEffect_comments (ok : Bool) (s : Session) :
    (saveEffect ok s).comments = s.comments := by
  cases ok <;> simp [saveEffect]

theorem doSubmit_comments (now : Int) (k : CommentKind) (text : Str) (ok : Bool)
    (s : Session) :
    (doSubmit now k text ok s).comments = handleSubmit now k text s.comments := by
  by_cases h : (jsTrim text).isEmpty
  · simp [doSubmit, handleSubmit, h]
  · simp [doSubmit, handleSubmit, h, saveEffect_comments]

theorem initSession_comments (stored : StoredValue) (ok : Bool) (slot0 : Option Str) :
    (initSession stored ok slot0).comments = loadComments stored := by
  simp only [initSession, saveEffect_comments]

theorem runOps_comments_congr : ∀ (ops : List SubmitOp) (s1 s2 : Session),
    s1.comments = s2.comments → (runOps ops s1).comments = (runOps ops s2).comments := by
  intro ops
  induction ops with
  | nil => intro s1 s2 h; exact h
  | cons op rest ih =>
    intro s1 s2 h
    apply ih
    rw [doSubmit_comments, doSubmit_comments, h]

theorem loadComments_length_le (stored : StoredValue) :
    (loadComments stored).length ≤ 200 := by
  cases stored with
  | absent => simp [loadComments]
  | unparseable => simp [loadComments]
  | parsed v =>
    cases v with
    | arr xs =>
      simp only [loadComments]
      exact List.length_take_le 200 _
    | null => simp [loadComments]
    | bool b => simp [loadComments]
    | num n => simp [loadComments]
    | str s => simp [loadComments]
    | obj fs => simp [loadComments]

theorem handleSubmit_length_le (now : Int) (k : CommentKind) (text : Str)
    (prev : List CommentItem) :
    (handleSubmit now k text prev).length ≤ prev.length + 1 := by
  by_cases h : (jsTrim text).isEmpty <;> simp [handleSubmit, h]

theorem runOps_length_le : ∀ (ops : List SubmitOp) (s : Session),
    (runOps ops s).comments.length ≤ s.comments.length + ops.length := by
  intro ops
  induction ops with
  | nil => intro s; simp [runOps]
  | cons op rest ih =>
    intro s
    have h1 := ih (doSubmit op.now op.kind op.text op.writeOk s)
    have h2 : (doSubmit op.now op.kind op.text op.writeOk s).comments.length ≤
        s.comments.length + 1 := by
      rw [doSubmit_comments]
      exact handleSubmit_length_le op.now op.kind op.text s.comments
    show (runOps rest (doSubmit op.now op.kind op.text op.writeOk s)).comments.length ≤ _
    simp only [List.length_cons]
    omega

/-! ## Claims about caps, submissions and persistence -/

/-- C3 counterexample: initializing from 200 stored comments and
submitting once drives the in-memory list to 201 elements, so the
"length ≤ 200 after every operation" invariant fails. -/
theorem commentCap_counterexample :
    200 < (doSubmit 0 .generalComment (chars "x") true
      (initSession (.parsed (.arr ((List.range 200).map mkStoredComment)))
        true none)).comments.length := by
  have hload : (initSession (.parsed (.arr ((List.range 200).map mkStoredComment)))
      true none).comments = (List.range 200).map mkLoadedComment := by
    rw [initSession_comments, loadComments_range 200,
      show min 200 200 = 200 from by decide]
  have hx : (jsTrim (chars "x")).isEmpty = false := by decide
  rw [doSubmit_comments, hload]
  simp [handleSubmit, hx]

/-- C3 (amended): the 200-element cap is enforced only by the load
effect, so it holds right after initialization; each submission grows
the list by at most one, so after `n` submissions the length is at most
`200 + n` (and can genuinely exceed 200). -/
theorem commentCap_amended :
    (∀ (stored : StoredValue) (ok : Bool) (slot0 : Option Str),
      (initSession stored ok slot0).comments.length ≤ 200) ∧
    (∀ (ops : List SubmitOp) (stored : StoredValue) (ok : Bool) (slot0 : Option Str),
      (runOps ops (initSession stored ok slot0)).comments.length ≤ 200 + ops.length) := by
  have hinit : ∀ (stored : StoredValue) (ok : Bool) (slot0 : Option Str),
      (initSession stored ok slot0).comments.length ≤ 200 := by
    intro stored ok slot0
    rw [initSession_comments]
    exact loadComments_length_le stored
  refine ⟨hinit, fun ops stored ok slot0 => ?_⟩
  have h1 := runOps_length_le ops (initSession stored ok slot0)
  have h2 := hinit stored ok slot0
  omega

/-- C4: a submission whose text trims non-empty prepends exactly one
comment holding the trimmed text, the given kind and the clock reading;
every previous comment stays, shifted by one; the new `createdAt` is at
least any time observed before the call. -/
theorem handleSubmit_nonempty_spec (now : Int) (k : CommentKind) (rawText : Str)
    (prev : List CommentItem) (h : jsTrim rawText ≠ []) :
    handleSubmit now k rawText prev =
      { type := k, text := jsTrim rawText, createdAt := now } :: prev ∧
    ∀ t0 : Int, t0 ≤ now → ∀ c : CommentItem,
      (handleSubmit now k rawText prev).head? = some c → t0 ≤ c.createdAt := by
  have hne : (jsTrim rawText).isEmpty = false := by
    cases hj : jsTrim rawText with
    | nil => exact absurd hj h
    | cons c t => rfl
  have heq : handleSubmit now k rawText prev =
      { type := k, text := jsTrim rawText, createdAt := now } :: prev := by
    simp [handleSubmit, hne]
  refine ⟨heq, fun t0 ht c hc => ?_⟩
  rw [heq] at hc
  simp only [List.head?_cons, Option.some.injEq] at hc
  rw [← hc]
  exact ht

/-- Witness for C4: submitting `"  hello  "` at time 5 into an empty
list yields one comment with text `"hello"` and timestamp 5. -/
theorem handleSubmit_nonempty_spec_witness :
    jsTrim (chars "  hello  ") ≠ [] ∧
    handleSubmit 5 .generalComment (chars "  hello  ") [] =
      [{ type := .generalComment, text := chars "hello", createdAt := 5 }] := by
  refine ⟨by decide, ?_⟩
  rw [(handleSubmit_nonempty_spec 5 .generalComment (chars "  hello  ") [] (by decide)).1]
  decide

/-- C5: a submission whose text trims to empty is a no-op: the list is
unchanged and the whole session (slot included) stays as it was; the
functions are total, so no error can be raised. -/
theorem submit_empty_noop (now : Int) (k : CommentKind) (rawText : Str) (ok : Bool)
    (s : Session) (prev : List CommentItem) (h : jsTrim rawText = []) :
    handleSubmit now k rawText prev = prev ∧ doSubmit now k rawText ok s = s := by
  have he : (jsTrim rawText).isEmpty = true := by rw [h]; rfl
  exact ⟨by simp [handleSubmit, he], by simp [doSubmit, he]⟩

/-- Witness for C5 on a whitespace-only submission. -/
theorem submit_empty_noop_witness :
    jsTrim (chars "   ") = [] ∧
    handleSubmit 9 .requestToEditSteps (chars "   ") [mkLoadedComment 1] =
      [mkLoadedComment 1] ∧
    doSubmit 9 .requestToEditSteps (chars "   ") true
      { comments := [mkLoadedComment 1], slot := none } =
      { comments := [mkLoadedComment 1], slot := none } := by
  have h := submit_empty_noop 9 .requestToEditSteps (chars "   ") true
    { comments := [mkLoadedComment 1], slot := none } [mkLoadedComment 1] (by decide)
  exact ⟨by decide, h.1, h.2⟩

/-- A stored comment object whose `text` is the empty string; the shape
check only asks `typeof x.text === "string"`, so it survives. -/
def storedEmptyText : JValue :=
  .obj [(chars "type", .str (chars "General Comment")),
    (chars "text", .str []),
    (chars "createdAt", .num 0)]

/-- C8 counterexample: loading an array holding a comment with `text`
equal to `""` keeps it, so after initialization the list can contain an
element whose text is empty. -/
theorem load_allows_empty_text :
    loadComments (.parsed (.arr [storedEmptyText])) =
      [{ type := .generalComment, text := [], createdAt := 0 }] ∧
    ¬ (∀ c ∈ loadComments (.parsed (.arr [storedEmptyText])), c.text ≠ []) := by
  exact ⟨by decide, by decide⟩

/-- C8 (amended): submissions only add comments with non-empty text, so
whenever every comment surviving the load has non-empty text, every
comment after any sequence of submissions does too; the load-time check
itself does not rule out an empty `text`. -/
theorem text_nonempty_preserved (stored : StoredValue) (ok : Bool)
    (slot0 : Option Str) (ops : List SubmitOp)
    (h : ∀ c ∈ loadComments stored, c.text ≠ []) :
    ∀ c ∈ (runOps ops (initSession stored ok slot0)).comments, c.text ≠ [] := by
  have key : ∀ (ops : List SubmitOp) (s : Session),
      (∀ c ∈ s.comments, c.text ≠ []) →
        ∀ c ∈ (runOps ops s).comments, c.text ≠ [] := by
    intro ops
    induction ops with
    | nil => intro s hs; exact hs
    | cons op rest ih =>
      intro s hs
      apply ih
      intro c hc
      rw [doSubmit_comments] at hc
      by_cases ht : (jsTrim op.text).isEmpty
      · simp only [handleSubmit, ht, if_pos] at hc
        exact hs c hc
      · simp only [handleSubmit, ht, Bool.false_eq_true, if_false,
          List.mem_cons] at hc
        rcases hc with rfl | hc
        · intro heq
          have h2 : jsTrim op.text = [] := heq
          exact ht (by rw [h2]; rfl)
        · exact hs c hc
  apply key
  intro c hc
  rw [initSession_comments] at hc
  exact h c hc

/-- One concrete submission used by the C8 witness. -/
def sampleSubmitOp : SubmitOp :=
  { now := 3, kind := .generalComment, text := chars " x ", writeOk := true }

/-- Witness for C8's amended statement: a well-shaped stored comment
followed by one real submission keeps every text non-empty. -/
theorem text_nonempty_preserved_witness :
    (∀ c ∈ loadComments (.parsed (.arr [mkStoredComment 7])), c.text ≠ []) ∧
    ∀ c ∈ (runOps [sampleSubmitOp]
      (initSession (.parsed (.arr [mkStoredComment 7])) true none)).comments,
      c.text ≠ [] :=
  ⟨by decide, text_nonempty_preserved (.parsed (.arr [mkStoredComment 7])) true none
    [sampleSubmitOp] (by decide)⟩

/-- C9: a failed write is swallowed: the in-memory list is exactly what
a successful write would have produced, the session is otherwise
untouched, and any later submissions evolve the list identically to the
success case. -/
theorem write_failure_swallowed (s : Session) (now : Int) (k : CommentKind)
    (text : Str) :
    (saveEffect false s).comments = (saveEffect true s).comments ∧
    saveEffect false s = s ∧
    (doSubmit now k text false s).comments = (doSubmit now k text true s).comments ∧
    ∀ ops : List SubmitOp,
      (runOps ops (saveEffect false s)).comments =
        (runOps ops (saveEffect true s)).comments := by
  refine ⟨by rw [saveEffect_comments, saveEffect_comments], by simp [saveEffect], ?_, ?_⟩
  · rw [doSubmit_comments, doSubmit_comments]
  · intro ops
    exact runOps_comments_congr ops _ _ (by rw [saveEffect_comments, saveEffect_comments])

/-- C10: the save effect runs after the load and after every effective
submission, so whenever the write succeeds the slot holds exactly the
serialized in-memory list; loading 250 stored comments immediately
rewrites the slot with the surviving first 200. -/
theorem persist_after_mutation :
    (∀ (stored : StoredValue) (slot0 : Option Str),
      (initSession stored true slot0).slot =
        some (stringifyComments (initSession stored true slot0).comments)) ∧
    (∀ (now : Int) (k : CommentKind) (text : Str) (s : Session), jsTrim text ≠ [] →
      (doSubmit now k text true s).slot =
        some (stringifyComments (doSubmit now k text true s).comments)) ∧
    (initSession (.parsed (.arr ((List.range 250).map mkStoredComment))) true none).slot =
      some (stringifyComments ((List.range 200).map mkLoadedComment)) := by
  have hsave : ∀ s : Session, (saveEffect true s).slot =
      some (stringifyComments (saveEffect true s).comments) := by
    intro s
    simp [saveEffect]
  refine ⟨fun stored slot0 => hsave _, ?_, ?_⟩
  · intro now k text s h
    have hne : (jsTrim text).isEmpty = false := by
      cases hj : jsTrim text with
      | nil => exact absurd hj h
      | cons c t => rfl
    simp only [doSubmit, hne, Bool.false_eq_true, if_false]
    exact hsave _
  · show (saveEffect true _).slot = _
    rw [hsave, saveEffect_comments]
    rw [show (loadComments (.parsed (.arr ((List.range 250).map mkStoredComment)))) =
      (List.range 200).map mkLoadedComment from by
        rw [loadComments_range 250, show min 200 250 = 200 from by decide]]

/-- Witness for C10: a successful write after one real submission
leaves the slot holding the serialized list. -/
theorem persist_after_mutation_witness :
    jsTrim (chars "hi") ≠ [] ∧
    (doSubmit 0 .generalComment (chars "hi") true
      { comments := [], slot := none }).slot =
      some (stringifyComments (doSubmit 0 .generalComment (chars "hi") true
        { comments := [], slot := none }).comments) :=
  ⟨by decide, persist_after_mutation.2.1 0 .generalComment (chars "hi")
    { comments := [], slot := none } (by decide)⟩

example : jsTrim (chars "  hello  ") = chars "hello" := by decide

example : strIncludes (chars "9513 gravois rd") (chars "gravois") = true := by decide

example : strIncludes (chars "abc") (chars "x") = false := by decide

example :
    decodeComment (.obj [(chars "type", .str (chars "General Comment")),
      (chars "text", .str (chars "hi")), (chars "createdAt", .num 3)]) =
      some { type := .generalComment, text := chars "hi", createdAt := 3 } := by
  decide

example :
    decodeComment (.obj [(chars "type", .str (chars "General Comment")),
      (chars "createdAt", .num 3)]) = none := by
  decide
